import Mathlib

/-!
# Verification of `jax.scipy.sparse.linalg` (CG and GMRES iterative solvers)

A shallow embedding of `src/jax/scipy/sparse/linalg.py`.  Structured vectors
(pytrees of arrays) are modelled as finite trees whose leaves are 1-D real
arrays (`List ℝ`); the per-leaf shape of such an array is its length.  Real
`ℝ` models the (finite) floating-point values; the NaN-producing paths that
two claims are about are modelled separately at the end of the file over
`RF := Option ℝ`, where `none` plays the role of NaN.
-/

namespace JaxLinalg

noncomputable section

open Classical

/-- A pytree: a finite tree whose leaves hold values of type `α`.
Models the nested-container "structured vector" of `jax.tree_util`. -/
inductive PyTree (α : Type) where
  | leaf : α → PyTree α
  | node : List (PyTree α) → PyTree α

mutual

/-- `tree_map`: apply `f` to every leaf. -/
def treeMap {α β : Type} (f : α → β) : PyTree α → PyTree β
  | .leaf a => .leaf (f a)
  | .node ts => .node (treeMapList f ts)

/-- `tree_map` on a list of subtrees. -/
def treeMapList {α β : Type} (f : α → β) : List (PyTree α) → List (PyTree β)
  | [] => []
  | t :: ts => treeMap f t :: treeMapList f ts

end

mutual

/-- `tree_multimap`: combine two pytrees leafwise.  The source requires the
two trees to have the same structure; on mismatched trees this total model
combines the overlapping part. -/
def treeMap2 {α β γ : Type} (f : α → β → γ) : PyTree α → PyTree β → PyTree γ
  | .leaf a, .leaf b => .leaf (f a b)
  | .node ts, .node us => .node (treeMap2List f ts us)
  | .leaf _, .node _ => .node []
  | .node _, .leaf _ => .node []

/-- `tree_multimap` on lists of subtrees. -/
def treeMap2List {α β γ : Type} (f : α → β → γ) :
    List (PyTree α) → List (PyTree β) → List (PyTree γ)
  | [], _ => []
  | _, [] => []
  | t :: ts, u :: us => treeMap2 f t u :: treeMap2List f ts us

end

mutual

/-- `tree_leaves`: the leaves of a pytree in left-to-right order. -/
def treeLeaves {α : Type} : PyTree α → List α
  | .leaf a => [a]
  | .node ts => treeLeavesList ts

/-- `tree_leaves` on a list of subtrees. -/
def treeLeavesList {α : Type} : List (PyTree α) → List α
  | [] => []
  | t :: ts => treeLeaves t ++ treeLeavesList ts

end

mutual

/-- Comparison of the treedefs of two pytrees: `true` exactly when
`tree_structure x == tree_structure y` holds in the source (same nesting,
same number and order of leaves; leaf data ignored). -/
def sameStructure {α β : Type} : PyTree α → PyTree β → Bool
  | .leaf _, .leaf _ => true
  | .node ts, .node us => sameStructureList ts us
  | _, _ => false

/-- Structure comparison on lists of subtrees. -/
def sameStructureList {α β : Type} : List (PyTree α) → List (PyTree β) → Bool
  | [], [] => true
  | t :: ts, u :: us => sameStructure t u && sameStructureList ts us
  | _, _ => false

end

/-- A leaf array: a 1-D array of reals. -/
abbrev Vec : Type := List ℝ

/-- Elementwise addition of two leaf arrays (`operator.add`). -/
def vecAdd (x y : Vec) : Vec := List.zipWith (· + ·) x y

/-- Elementwise subtraction of two leaf arrays (`operator.sub`). -/
def vecSub (x y : Vec) : Vec := List.zipWith (· - ·) x y

/-- Dot product of two leaf arrays (`jnp.vdot` at HIGHEST precision; over the
real model the complex conjugation and the real/imaginary split of
`_vdot_real_part` are both the identity, so `_vdot` and `_vdot_real_part`
coincide). -/
def dotVec (x y : Vec) : ℝ := (List.zipWith (· * ·) x y).sum

/-- `_vdot_real_tree x y = sum(tree_leaves(tree_multimap(_vdot_real_part, x, y)))`. -/
def vdotRealTree (x y : PyTree Vec) : ℝ :=
  (treeLeaves (treeMap2 dotVec x y)).sum

/-- `_norm_tree x = jnp.sqrt(_vdot_real_tree(x, x))`. -/
def normTree (x : PyTree Vec) : ℝ := Real.sqrt (vdotRealTree x x)

/-- `_mul`: scalar times structured vector, leafwise. -/
def scalarMulTree (s : ℝ) (t : PyTree Vec) : PyTree Vec :=
  treeMap (fun l => l.map (fun a => s * a)) t

/-- `_div`: structured vector divided by a scalar, leafwise. -/
def divTree (t : PyTree Vec) (s : ℝ) : PyTree Vec :=
  treeMap (fun l => l.map (fun a => a / s)) t

/-- `_add`: leafwise addition of structured vectors. -/
def addTree (x y : PyTree Vec) : PyTree Vec := treeMap2 vecAdd x y

/-- `_sub`: leafwise subtraction of structured vectors. -/
def subTree (x y : PyTree Vec) : PyTree Vec := treeMap2 vecSub x y

/-- `tree_map(jnp.zeros_like, ·)`: the zero structured vector of the same
shape. -/
def zerosLike (t : PyTree Vec) : PyTree Vec :=
  treeMap (fun l => l.map (fun _ => (0 : ℝ))) t

/-- `_shapes`: the list of per-leaf array shapes (leaves are 1-D, so a shape
is a length). -/
def shapes (t : PyTree Vec) : List ℕ := (treeLeaves t).map List.length

/-- `_safe_normalize(x, return_norm=True, thresh)`.  Computes `norm = ‖x‖`;
if `norm > thresh` returns `(x / norm, norm)`, otherwise the zero vector of
`x`'s shape together with a zero norm.  The source's default threshold is the
machine epsilon of the norm's dtype (an external `finfo` query); every call
site of this embedding passes its threshold explicitly, default-threshold
callers passing the ambient `eps` parameter.  The `return_norm` flag only
selects how much of the pair the caller receives and is elided. -/
def safeNormalize (x : PyTree Vec) (thresh : ℝ) : PyTree Vec × ℝ :=
  let norm := normTree x
  if norm > thresh then (divTree x norm, norm) else (zerosLike x, 0)

/-- Model of `lax.while_loop` by fuelled iteration: the two solver loops both
carry a counter `k` that the condition bounds strictly by the fuel supplied
at the call site, so the fuelled loop computes the same fixpoint. -/
def whileLoop {σ : Type} (cond : σ → Bool) (body : σ → σ) : ℕ → σ → σ
  | 0, s => s
  | fuel + 1, s => if cond s then whileLoop cond body fuel (body s) else s

/-- The CG loop state `(x, r, gamma, p, k)`. -/
abbrev CgState : Type := PyTree Vec × PyTree Vec × ℝ × PyTree Vec × ℕ

/-- `cond_fun` of `_cg_solve` (lambda-lifted; `atol2` is computed once in
`_cg_solve` and captured by the closure).  `Mid` records the outcome of the
source's object-identity test `M is _identity`. -/
def cgCond (atol2 : ℝ) (maxiter : ℕ) (Mid : Bool) (value : CgState) : Bool :=
  let (_, r, gamma, _, k) := value
  let rs := if Mid then gamma else vdotRealTree r r
  decide (rs > atol2) && decide (k < maxiter)

/-- `body_fun` of `_cg_solve` (lambda-lifted). -/
def cgBody (A M : PyTree Vec → PyTree Vec) (value : CgState) : CgState :=
  let (x, r, gamma, p, k) := value
  let Ap := A p
  let alpha := gamma / vdotRealTree p Ap
  let x' := addTree x (scalarMulTree alpha p)
  let r' := subTree r (scalarMulTree alpha Ap)
  let z' := M r'
  let gamma' := vdotRealTree r' z'
  let beta' := gamma' / gamma
  let p' := addTree z' (scalarMulTree beta' p)
  (x', r', gamma', p', k + 1)

/-- `_cg_solve(A, b, x0, maxiter, tol, atol, M)`.  The iteration counter `k`
starts at `0` and the loop condition enforces `k < maxiter`, so `maxiter`
units of fuel realize `lax.while_loop` exactly. -/
def cgSolve (A : PyTree Vec → PyTree Vec) (b x0 : PyTree Vec) (maxiter : ℕ)
    (tol atol : ℝ) (M : PyTree Vec → PyTree Vec) (Mid : Bool) : PyTree Vec :=
  let bs := vdotRealTree b b
  let atol2 := max (tol ^ 2 * bs) (atol ^ 2)
  let r0 := subTree b (A x0)
  let z0 := M r0
  let p0 := z0
  let gamma0 := vdotRealTree r0 z0
  (whileLoop (cgCond atol2 maxiter Mid) (cgBody A M) maxiter
    (x0, r0, gamma0, p0, 0)).1

/-- Modelled from the spec: the external differentiable-solve wrapper
(`jax.lax.custom_linear_solve`, not part of this repository).  Per spec §6 it
receives the operator, the right-hand side and the solve closures and
returns a solution produced by invoking the forward-solve closure; the
transpose closure and the symmetry flag participate only in outward
differentiation, outside this core. -/
def customLinearSolve {V : Type} (A : V → V) (b : V)
    (solve : (V → V) → V → V) : V :=
  solve A b

/-- Message of the `ValueError` raised on mismatched tree structure. -/
def structureErrorMsg : String := "x0 and b must have matching tree structure"

/-- Message of the `ValueError` raised by `cg` on mismatched leaf shapes. -/
def shapesErrorMsg : String := "arrays in x0 and b must have matching shapes"

/-- Public `cg(A, b, x0, tol, atol, maxiter, M)`.  A raised `ValueError` is
modelled as `Except.error`.  `device_put` is placement only and is a no-op
here.  The source's `symmetric` flag is computed from leaf dtypes (always
real here) and is consumed only by the external wrapper.  `Mid` is `true`
exactly when the caller omitted `M`, matching the source's later pointer
test `M is _identity` (the `_identity` object is module-private, so a caller
can hit it only by omission). -/
def cg (A : PyTree Vec → PyTree Vec) (b : PyTree Vec) (x0? : Option (PyTree Vec))
    (tol atol : ℝ) (maxiter? : Option ℕ)
    (M? : Option (PyTree Vec → PyTree Vec)) :
    Except String (PyTree Vec × Option ℤ) :=
  let x0 := x0?.getD (zerosLike b)
  let size := ((treeLeaves b).map List.length).sum
  let maxiter := maxiter?.getD (10 * size)
  let M := M?.getD id
  let Mid := M?.isNone
  if sameStructure x0 b = false then .error structureErrorMsg
  else if shapes x0 ≠ shapes b then .error shapesErrorMsg
  else
    .ok (customLinearSolve A b
          (fun A' b' => cgSolve A' b' x0 maxiter tol atol M Mid), none)

/-- `_project_on_columns(A, v)`: per leaf, `A.T.conj() @ v` (a coefficient
per basis column; conjugation is the identity over ℝ), then
`tree_reduce(operator.add, ·)` across leaves.  A basis leaf is stored as its
list of columns. -/
def projectOnColumns (Q : PyTree (List Vec)) (v : PyTree Vec) : Vec :=
  let vProj := treeMap2 (fun X y => X.map (fun c => dotVec c y)) Q v
  match treeLeaves vProj with
  | [] => []
  | l :: ls => ls.foldl vecAdd l

/-- Per-leaf `jnp.dot(X, h)`: the matrix-vector product `Σⱼ hⱼ · Xⱼ` of a
column-stored leaf with a coefficient vector. -/
def matVec (X : List Vec) (h : List ℝ) : Vec :=
  List.foldl vecAdd (List.replicate (X.headD []).length 0)
    (List.zipWith (fun c hj => c.map (fun a => hj * a)) X h)

/-- One pass of the loop body of `_iterative_classical_gram_schmidt`:
`h = project(Q, q); q = q - Q@h; r = r + h`. -/
def icgsStep (Q : PyTree (List Vec)) (qr : PyTree Vec × Vec) : PyTree Vec × Vec :=
  let h := projectOnColumns Q qr.1
  let Qh := treeMap (fun X => matVec X h) Q
  (subTree qr.1 Qh, vecAdd qr.2 h)

/-- The `for _ in range(iterations)` loop of
`_iterative_classical_gram_schmidt`. -/
def icgsLoop (Q : PyTree (List Vec)) : ℕ → PyTree Vec × Vec → PyTree Vec × Vec
  | 0, qr => qr
  | n + 1, qr => icgsLoop Q n (icgsStep Q qr)

/-- `_iterative_classical_gram_schmidt(Q, x, iterations=2)`: orthogonalize
`x` against the columns of `Q`, accumulating the coefficients in `r`
(initialized to `jnp.zeros(number of columns of the first leaf)`). -/
def iterativeClassicalGramSchmidt (Q : PyTree (List Vec)) (x : PyTree Vec)
    (iterations : ℕ := 2) : PyTree Vec × Vec :=
  icgsLoop Q iterations (x, List.replicate ((treeLeaves Q).headD []).length 0)

/-- `tree_map(lambda x: x[..., k], V)`: column `k` of the basis. -/
def getCol (V : PyTree (List Vec)) (k : ℕ) : PyTree Vec :=
  treeMap (fun X => X.getD k []) V

/-- `tree_multimap(lambda X, y: X.at[..., k].set(y), V, y)`: write column
`k` of the basis. -/
def setCol (V : PyTree (List Vec)) (k : ℕ) (y : PyTree Vec) : PyTree (List Vec) :=
  treeMap2 (fun X l => X.set k l) V y

/-- `kth_arnoldi_iteration(k, A, M, V, H, tol)`: returns the extended basis,
the Hessenberg matrix with row `k` written, and the breakdown flag
`v_norm == 0`. -/
def kthArnoldiIteration (k : ℕ) (A M : PyTree Vec → PyTree Vec)
    (V : PyTree (List Vec)) (H : List (List ℝ)) (tol : ℝ) :
    PyTree (List Vec) × List (List ℝ) × Bool :=
  let v := getCol V k
  let v' := A (M v)
  let qh := iterativeClassicalGramSchmidt V v' 1
  let uv := safeNormalize qh.1 tol
  let V' := setCol V (k + 1) uv.1
  let h' := qh.2.set (k + 1) uv.2
  let H' := H.set k h'
  (V', H', decide (uv.2 = 0))

/-- `apply_ith_rotation(i, H_row)` (lambda-lifted body of the `fori_loop` in
`apply_givens_rotations`): apply the stored rotation `givens[i]` to entries
`i, i+1` of the row. -/
def applyIthRotation (givens : List (ℝ × ℝ)) (i : ℕ) (row : List ℝ) : List ℝ :=
  let g := givens.getD i (0, 0)
  let Hi := g.1 * row.getD i 0 - g.2 * row.getD (i + 1) 0
  let Hip1 := g.2 * row.getD i 0 + g.1 * row.getD (i + 1) 0
  (row.set i Hi).set (i + 1) Hip1

/-- `lax.fori_loop(0, k, apply_ith_rotation, H_row)`: the stored rotations
`0 .. k-1` applied in index order. -/
def rotateRow (givens : List (ℝ × ℝ)) (k : ℕ) (row : List ℝ) : List ℝ :=
  (List.range k).foldl (fun r i => applyIthRotation givens i r) row

/-- `givens_rotation(v1, v2)`: `t = sqrt(v1² + v2²)`, `cs = v1/t`,
`sn = -v2/t`. -/
def givensRotation (v1 v2 : ℝ) : ℝ × ℝ :=
  let t := Real.sqrt (v1 ^ 2 + v2 ^ 2)
  (v1 / t, -v2 / t)

/-- `apply_givens_rotations(H_row, givens, k)`: rotate the row by the stored
rotations, eliminate entry `k+1` with a fresh rotation stored at index `k`,
and return the updated row and table. -/
def applyGivensRotations (HRow : List ℝ) (givens : List (ℝ × ℝ)) (k : ℕ) :
    List ℝ × List (ℝ × ℝ) :=
  let RRow := rotateRow givens k HRow
  let gf := givensRotation (RRow.getD k 0) (RRow.getD (k + 1) 0)
  let givens' := givens.set k gf
  let RRow' := RRow.set k (gf.1 * RRow.getD k 0 - gf.2 * RRow.getD (k + 1) 0)
  (RRow'.set (k + 1) 0, givens')

/-- `jnp.eye(m, n)`: ones on the diagonal. -/
def eyeMat (m n : ℕ) : List (List ℝ) :=
  (List.range m).map (fun i => (List.replicate n (0 : ℝ)).set i 1)

/-- `R[:, :-1]`: drop the last column of each row. -/
def dropLastCol (R : List (List ℝ)) : List (List ℝ) := R.map List.dropLast

/-- Matrix transpose (`.T`). -/
def transposeMat (R : List (List ℝ)) : List (List ℝ) :=
  (List.range (R.headD []).length).map (fun j => R.map (fun row => row.getD j 0))

/-- The common signature of the two per-restart GMRES step functions
`(A, b, x0, unit_residual, residual_norm, inner_tol, restart, M) ↦
(x, unit_residual, residual_norm)`. -/
abbrev GmresStep : Type :=
  (PyTree Vec → PyTree Vec) → PyTree Vec → PyTree Vec → PyTree Vec → ℝ → ℝ →
    ℕ → (PyTree Vec → PyTree Vec) → PyTree Vec × PyTree Vec × ℝ

/-- `x[..., None]` padded with `restart` zero columns: the initial basis
storage of width `restart + 1` holding the unit residual. -/
def padBasis (restart : ℕ) (x : PyTree Vec) : PyTree (List Vec) :=
  treeMap (fun l => l :: List.replicate restart (l.map (fun _ => (0 : ℝ)))) x

/-- `_gmres_qr(A, b, x0, unit_residual, residual_norm, inner_tol, restart, M)`:
one restart of GMRES in the incremental QR/Givens variant.  `solveTri`
models the external `jsp.linalg.solve_triangular`; `eps` the machine
epsilon used by the default-threshold `_safe_normalize` call. -/
def gmresQr (solveTri : List (List ℝ) → Vec → Vec) (eps : ℝ) : GmresStep :=
  fun A b x0 unitResidual residualNorm innerTol restart M =>
    let V := padBasis restart unitResidual
    let R := eyeMat restart (restart + 1)
    let bNorm := normTree b
    let givens : List (ℝ × ℝ) := List.replicate restart (0, 0)
    let betaVec := (List.replicate (restart + 1) (0 : ℝ)).set 0 residualNorm
    let loopCond :=
      fun (c : ℕ × ℝ × PyTree (List Vec) × List (List ℝ) × List ℝ × List (ℝ × ℝ)) =>
        if c.1 < restart then decide (c.2.1 > innerTol) else false
    let step :=
      fun (c : ℕ × ℝ × PyTree (List Vec) × List (List ℝ) × List ℝ × List (ℝ × ℝ)) =>
        let (k, _, V, R, betaVec, givens) := c
        let vh := kthArnoldiIteration k A M V R innerTol
        let rg := applyGivensRotations (vh.2.1.getD k []) givens k
        let R' := R.set k rg.1
        let g := rg.2.getD k (0, 0)
        let cs := g.1 * betaVec.getD k 0
        let sn := g.2 * betaVec.getD k 0
        let betaVec' := (betaVec.set k cs).set (k + 1) sn
        (k + 1, |sn| / bNorm, vh.1, R', betaVec', rg.2)
    let c := whileLoop loopCond step restart (0, residualNorm, V, R, betaVec, givens)
    let (_, _, V, R, betaVec, _) := c
    let y := solveTri (transposeMat (dropLastCol R)) betaVec.dropLast
    let Vy := treeMap (fun X => matVec X.dropLast y) V
    let dx := M Vy
    let x := addTree x0 dx
    let residual := subTree b (A x)
    let urn := safeNormalize residual eps
    (x, urn.1, urn.2)

/-- `loop_cond` of `_gmres_plain` (lambda-lifted):
`lax.cond(k < restart, ~breakdown, False)`. -/
def gmresPlainLoopCond (restart : ℕ)
    (carry : PyTree (List Vec) × List (List ℝ) × Bool × ℕ) : Bool :=
  if carry.2.2.2 < restart then !carry.2.2.1 else false

/-- `arnoldi_process` of `_gmres_plain` (lambda-lifted). -/
def gmresPlainStep (A M : PyTree Vec → PyTree Vec) (innerTol : ℝ)
    (carry : PyTree (List Vec) × List (List ℝ) × Bool × ℕ) :
    PyTree (List Vec) × List (List ℝ) × Bool × ℕ :=
  let (V, H, _, k) := carry
  let r := kthArnoldiIteration k A M V H innerTol
  (r.1, r.2.1, r.2.2, k + 1)

/-- `_gmres_plain(A, b, x0, unit_residual, residual_norm, inner_tol, restart, M)`:
one restart of GMRES in the plain variant: build the basis until `restart`
columns or breakdown, then one batch solve.  `solveDense` models the
external `jsp.linalg.solve`. -/
def gmresPlain (solveDense : List (List ℝ) → Vec → Vec) (eps : ℝ) : GmresStep :=
  fun A b x0 unitResidual residualNorm innerTol restart M =>
    let V := padBasis restart unitResidual
    let H := eyeMat restart (restart + 1)
    let c := whileLoop (gmresPlainLoopCond restart) (gmresPlainStep A M innerTol)
      restart (V, H, false, 0)
    let (V, H, _, _) := c
    let betaVec := (List.replicate restart (0 : ℝ)).set 0 residualNorm
    let y := solveDense (transposeMat (dropLastCol H)) betaVec
    let Vy := treeMap (fun X => matVec X.dropLast y) V
    let dx := M Vy
    let x := addTree x0 dx
    let residual := subTree b (A x)
    let urn := safeNormalize residual eps
    (x, urn.1, urn.2)

/-- `_gmres_solve(A, b, x0, outer_tol, inner_tol, restart, maxiter, M,
gmres_func)`: the outer restart loop.  `k` starts at `0` and the condition
enforces `k < maxiter`, so `maxiter` units of fuel realize `lax.while_loop`
exactly. -/
def gmresSolve (A : PyTree Vec → PyTree Vec) (b x0 : PyTree Vec)
    (outerTol innerTol : ℝ) (restart maxiter : ℕ)
    (M : PyTree Vec → PyTree Vec) (gmresFunc : GmresStep) (eps : ℝ) :
    PyTree Vec :=
  let residual := subTree b (A x0)
  let urn := safeNormalize residual eps
  let cond := fun (v : PyTree Vec × ℕ × PyTree Vec × ℝ) =>
    if v.2.1 < maxiter then decide (v.2.2.2 > outerTol) else false
  let body := fun (v : PyTree Vec × ℕ × PyTree Vec × ℝ) =>
    let r := gmresFunc A b v.1 v.2.2.1 v.2.2.2 innerTol restart M
    (r.1, v.2.1 + 1, r.2.1, r.2.2)
  (whileLoop cond body maxiter (x0, 0, urn.1, urn.2)).1

/-- The per-restart step function selected by `gmres`'s `qr_mode` flag,
exactly as the source dispatches it: `qr_mode=True` passes `_gmres_plain`
to `_gmres_solve` and `qr_mode=False` passes `_gmres_qr`. -/
def gmresStepFunc (solveTri solveDense : List (List ℝ) → Vec → Vec) (eps : ℝ)
    (qrMode : Bool) : GmresStep :=
  if qrMode then gmresPlain solveDense eps else gmresQr solveTri eps

/-- `jnp.isnan` on the real model: the reals model the finite floats, where
`isnan` is identically false.  The NaN-propagation behaviour of the
`info` computation is modelled over `RF` by `gmresInfo` below. -/
def isnanReal (_ : ℝ) : Bool := false

/-- Public `gmres(A, b, x0, tol, atol, restart, maxiter, M, qr_mode)`.
`solveTri`, `solveDense` and `eps` model the external array-math library
(triangular solve, dense solve, machine epsilon).  A raised `ValueError` is
modelled as `Except.error`; `device_put` is a no-op.  The source computes
`size` as the total element count of `b`'s leaves (the `except
AttributeError` branch fires only for non-array leaves, which this model
excludes). -/
def gmres (solveTri solveDense : List (List ℝ) → Vec → Vec) (eps : ℝ)
    (A : PyTree Vec → PyTree Vec) (b : PyTree Vec) (x0? : Option (PyTree Vec))
    (tol atol : ℝ) (restart0 : ℕ) (maxiter? : Option ℕ)
    (M? : Option (PyTree Vec → PyTree Vec)) (qrMode : Bool) :
    Except String (PyTree Vec × ℤ) :=
  let x0 := x0?.getD (zerosLike b)
  let M := M?.getD id
  let size := ((treeLeaves b).map List.length).sum
  let maxiter := maxiter?.getD (10 * size)
  let restart := min restart0 size
  if sameStructure x0 b = false then .error structureErrorMsg
  else
    let bNorm := normTree b
    if bNorm = 0 then .ok (b, 0)
    else
      let outerTol := max (tol * bNorm) atol
      let Mb := M b
      let MbNorm := normTree Mb
      let innerTol := MbNorm * min 1 (outerTol / bNorm)
      let x := customLinearSolve A b (fun A' b' =>
        gmresSolve A' b' x0 outerTol innerTol restart maxiter M
          (gmresStepFunc solveTri solveDense eps qrMode) eps)
      .ok (x, if isnanReal (normTree x) then -1 else 0)

/-- The spec's description of the Arnoldi step orthogonalization
("classical Gram-Schmidt, default two passes"), stated for refinement
comparison with `kthArnoldiIteration`: identical except that the
orthogonalization call uses the scheme's default two passes. -/
def kthArnoldiIterationTwoPass (k : ℕ) (A M : PyTree Vec → PyTree Vec)
    (V : PyTree (List Vec)) (H : List (List ℝ)) (tol : ℝ) :
    PyTree (List Vec) × List (List ℝ) × Bool :=
  let v := getCol V k
  let v' := A (M v)
  let qh := iterativeClassicalGramSchmidt V v' 2
  let uv := safeNormalize qh.1 tol
  let V' := setCol V (k + 1) uv.1
  let h' := qh.2.set (k + 1) uv.2
  let H' := H.set k h'
  (V', H', decide (uv.2 = 0))

/-! ## The `RF` model: reals with NaN

`RF := Option ℝ` models a floating-point value that is either a finite real
(`some a`) or NaN (`none`).  Infinities are outside the model; a comment at
each operation notes where that matters.  NaN propagates through every
arithmetic operation, as in IEEE-754. -/

/-- A float that is a finite real or NaN. -/
abbrev RF : Type := Option ℝ

/-- NaN-propagating addition. -/
def rfAdd : RF → RF → RF
  | some a, some b => some (a + b)
  | _, _ => none

/-- NaN-propagating subtraction. -/
def rfSub : RF → RF → RF
  | some a, some b => some (a - b)
  | _, _ => none

/-- NaN-propagating multiplication (IEEE: `NaN * x = NaN` for every `x`,
including zero). -/
def rfMul : RF → RF → RF
  | some a, some b => some (a * b)
  | _, _ => none

/-- NaN-propagating negation. -/
def rfNeg : RF → RF
  | some a => some (-a)
  | none => none

/-- Division: NaN propagates, and division by zero yields NaN.  (IEEE gives
`±inf` for `x/0` with `x ≠ 0`; infinities are outside this model, and in
`givens_rotation` the denominator `t = sqrt(v1² + v2²)` vanishes only when
the numerator does too, where IEEE also gives NaN.) -/
def rfDiv : RF → RF → RF
  | some a, some b => if b = 0 then none else some (a / b)
  | _, _ => none

/-- Square root: NaN propagates and negative arguments yield NaN. -/
def rfSqrt : RF → RF
  | some a => if a < 0 then none else some (Real.sqrt a)
  | none => none

/-- `jnp.isnan`. -/
def rfIsnan (x : RF) : Bool := x.isNone

/-- `_vdot_real_tree(x, x)`-style sum of products over a flattened leaf
vector of `RF` values. -/
def rfVdot (x y : List RF) : RF :=
  (List.zipWith rfMul x y).foldr rfAdd (some 0)

/-- `_norm_tree` over `RF`: `sqrt(Σ xᵢ²)` on the flattened solution. -/
def rfNormTree (x : List RF) : RF := rfSqrt (rfVdot x x)

/-- Lines 552–554 of the source: `failed = jnp.isnan(_norm_tree(x));
info = lax.cond(failed, -1, 0)`, over the flattened final solution. -/
def gmresInfo (x : List RF) : ℤ :=
  if rfIsnan (rfNormTree x) then -1 else 0

/-- `apply_ith_rotation` over `RF`. -/
def rfApplyIthRotation (givens : List (RF × RF)) (i : ℕ) (row : List RF) :
    List RF :=
  let g := givens.getD i (some 0, some 0)
  let Hi := rfSub (rfMul g.1 (row.getD i (some 0))) (rfMul g.2 (row.getD (i + 1) (some 0)))
  let Hip1 := rfAdd (rfMul g.2 (row.getD i (some 0))) (rfMul g.1 (row.getD (i + 1) (some 0)))
  (row.set i Hi).set (i + 1) Hip1

/-- `givens_rotation` over `RF`: `t = sqrt(v1² + v2²)`, `(v1/t, -v2/t)`,
with no guard against `t = 0`. -/
def rfGivensRotation (v1 v2 : RF) : RF × RF :=
  let t := rfSqrt (rfAdd (rfMul v1 v1) (rfMul v2 v2))
  (rfDiv v1 t, rfDiv (rfNeg v2) t)

/-- `apply_givens_rotations` over `RF`. -/
def rfApplyGivensRotations (row : List RF) (givens : List (RF × RF)) (k : ℕ) :
    List RF × List (RF × RF) :=
  let R := (List.range k).foldl (fun r i => rfApplyIthRotation givens i r) row
  let gf := rfGivensRotation (R.getD k (some 0)) (R.getD (k + 1) (some 0))
  let givens' := givens.set k gf
  let R' := R.set k (rfSub (rfMul gf.1 (R.getD k (some 0))) (rfMul gf.2 (R.getD (k + 1) (some 0))))
  (R'.set (k + 1) (some 0), givens')

/-! ## Helper lemmas -/

theorem whileLoop_stop {σ : Type} (cond : σ → Bool) (body : σ → σ)
    (fuel : ℕ) (s : σ) (h : cond s = false) : whileLoop cond body fuel s = s := by
  cases fuel with
  | zero => rfl
  | succ n => rw [whileLoop, h]; simp

mutual

theorem treeLeaves_treeMap2_self {α β : Type} (f : α → α → β) :
    ∀ t : PyTree α, treeLeaves (treeMap2 f t t) = (treeLeaves t).map (fun a => f a a)
  | .leaf a => by simp [treeMap2, treeLeaves]
  | .node ts => by
      simp only [treeMap2, treeLeaves]
      exact treeLeavesList_treeMap2List_self f ts

theorem treeLeavesList_treeMap2List_self {α β : Type} (f : α → α → β) :
    ∀ ts : List (PyTree α),
      treeLeavesList (treeMap2List f ts ts) = (treeLeavesList ts).map (fun a => f a a)
  | [] => by simp [treeMap2List, treeLeavesList]
  | t :: ts => by
      simp only [treeMap2List, treeLeavesList, List.map_append]
      rw [treeLeaves_treeMap2_self f t, treeLeavesList_treeMap2List_self f ts]

end

theorem sum_eq_zero_of_nonneg {l : List ℝ} (h0 : ∀ a ∈ l, 0 ≤ a)
    (hs : l.sum = 0) : ∀ a ∈ l, a = 0 := by
  induction l with
  | nil => intro a ha; cases ha
  | cons b l ih =>
      have hb : 0 ≤ b := h0 b (by simp)
      have hl : ∀ a ∈ l, 0 ≤ a := fun a ha => h0 a (by simp [ha])
      have hsum : 0 ≤ l.sum := List.sum_nonneg hl
      rw [List.sum_cons] at hs
      have hb0 : b = 0 := by linarith
      have hl0 : l.sum = 0 := by linarith
      intro a ha
      rcases List.mem_cons.mp ha with h | h
      · exact h ▸ hb0
      · exact ih hl hl0 a h

theorem dotVec_self_nonneg (l : Vec) : 0 ≤ dotVec l l := by
  rw [dotVec, List.zipWith_same]
  exact List.sum_nonneg (by
    intro a ha
    obtain ⟨b, _, rfl⟩ := List.mem_map.mp ha
    exact mul_self_nonneg b)

theorem dotVec_self_eq_zero {l : Vec} (h : dotVec l l = 0) : ∀ a ∈ l, a = 0 := by
  rw [dotVec, List.zipWith_same] at h
  intro a ha
  have := sum_eq_zero_of_nonneg (l := l.map (fun a => a * a))
    (by intro c hc; obtain ⟨b, _, rfl⟩ := List.mem_map.mp hc; exact mul_self_nonneg b)
    h (a * a) (List.mem_map.mpr ⟨a, ha, rfl⟩)
  exact mul_self_eq_zero.mp this

theorem vdotRealTree_self_nonneg (t : PyTree Vec) : 0 ≤ vdotRealTree t t := by
  rw [vdotRealTree, treeLeaves_treeMap2_self]
  exact List.sum_nonneg (by
    intro a ha
    obtain ⟨l, _, rfl⟩ := List.mem_map.mp ha
    exact dotVec_self_nonneg l)

theorem normTree_eq_zero_leaves {t : PyTree Vec} (h : normTree t = 0) :
    ∀ l ∈ treeLeaves t, ∀ a ∈ l, a = 0 := by
  have hv : vdotRealTree t t = 0 :=
    (Real.sqrt_eq_zero (vdotRealTree_self_nonneg t)).mp h
  rw [vdotRealTree, treeLeaves_treeMap2_self] at hv
  intro l hl
  have hdot : dotVec l l = 0 :=
    sum_eq_zero_of_nonneg
      (by intro c hc; obtain ⟨u, _, rfl⟩ := List.mem_map.mp hc; exact dotVec_self_nonneg u)
      hv (dotVec l l) (List.mem_map.mpr ⟨l, hl, rfl⟩)
  exact dotVec_self_eq_zero hdot

theorem rfVdot_self_none {x : List RF} (h : none ∈ x) : rfVdot x x = none := by
  induction x with
  | nil => cases h
  | cons a x ih =>
      rw [rfVdot, List.zipWith_same, List.map_cons, List.foldr_cons]
      rcases List.mem_cons.mp h with h | h
      · subst h; rfl
      · have := ih h
        rw [rfVdot, List.zipWith_same] at this
        rw [this]
        cases rfMul a a <;> rfl

theorem rfVdot_self_some {x : List RF} (h : none ∉ x) :
    ∃ s : ℝ, 0 ≤ s ∧ rfVdot x x = some s := by
  induction x with
  | nil => exact ⟨0, le_refl 0, rfl⟩
  | cons a x ih =>
      obtain ⟨s, hs, hval⟩ := ih (fun hm => h (List.mem_cons.mpr (Or.inr hm)))
      obtain ⟨b, rfl⟩ : ∃ b : ℝ, a = some b := by
        cases a with
        | none => exact absurd (List.mem_cons.mpr (Or.inl rfl)) h
        | some b => exact ⟨b, rfl⟩
      refine ⟨b * b + s, add_nonneg (mul_self_nonneg b) hs, ?_⟩
      rw [rfVdot, List.zipWith_same, List.map_cons, List.foldr_cons]
      rw [rfVdot, List.zipWith_same] at hval
      rw [hval]
      rfl

theorem safeNormalize_collapse {x : PyTree Vec} {thresh : ℝ}
    (h : normTree x ≤ thresh) : safeNormalize x thresh = (zerosLike x, 0) := by
  rw [safeNormalize]
  simp only [if_neg (not_lt.mpr h)]

theorem safeNormalize_div {x : PyTree Vec} {thresh : ℝ}
    (h : thresh < normTree x) :
    safeNormalize x thresh = (divTree x (normTree x), normTree x) := by
  rw [safeNormalize]
  simp only [if_pos h]

theorem rfNormTree_none_iff (x : List RF) : rfNormTree x = none ↔ none ∈ x := by
  constructor
  · intro h
    by_contra hmem
    obtain ⟨s, hs, hval⟩ := rfVdot_self_some hmem
    rw [rfNormTree, hval, rfSqrt] at h
    rw [if_neg (not_lt.mpr hs)] at h
    cases h
  · intro h
    rw [rfNormTree, rfVdot_self_none h]
    rfl

/-! ## Claim theorems -/

/-- C1: the `qr_mode` dispatch as the source writes it.  `qr_mode=True`
hands `_gmres_plain` (the batch variant) to the outer solve loop and
`qr_mode=False` hands `_gmres_qr` (the incremental QR/Givens variant) —
the reverse of what the claim (and `gmres`'s own docstring, which promises
a QR-based, early-terminating build for `qr_mode=True`) states. -/
theorem qr_mode_dispatch_swapped
    (solveTri solveDense : List (List ℝ) → Vec → Vec) (eps : ℝ) :
    gmresStepFunc solveTri solveDense eps true = gmresPlain solveDense eps ∧
    gmresStepFunc solveTri solveDense eps false = gmresQr solveTri eps :=
  ⟨rfl, rfl⟩

/-- C3: the CG loop condition, checked before each step, continues exactly
while `k < maxiter` and the residual indicator exceeds
`atol2 = max(tol² · vdot_real(b,b), atol²)`, the indicator being `gamma`
for the identity preconditioner and the recomputed `vdot_real(r,r)`
otherwise; and `_cg_solve` drives its loop with exactly this condition. -/
theorem cg_loop_condition (b : PyTree Vec) (tol atol : ℝ) (maxiter : ℕ)
    (Mid : Bool) :
    (∀ (x r : PyTree Vec) (gamma : ℝ) (p : PyTree Vec) (k : ℕ),
      cgCond (max (tol ^ 2 * vdotRealTree b b) (atol ^ 2)) maxiter Mid
          (x, r, gamma, p, k) = true ↔
        (k < maxiter ∧
          (if Mid then gamma else vdotRealTree r r) >
            max (tol ^ 2 * vdotRealTree b b) (atol ^ 2))) ∧
    (∀ (A M : PyTree Vec → PyTree Vec) (fuel : ℕ) (s : CgState),
      whileLoop (cgCond (max (tol ^ 2 * vdotRealTree b b) (atol ^ 2)) maxiter Mid)
          (cgBody A M) (fuel + 1) s =
        if cgCond (max (tol ^ 2 * vdotRealTree b b) (atol ^ 2)) maxiter Mid s
        then whileLoop (cgCond (max (tol ^ 2 * vdotRealTree b b) (atol ^ 2))
            maxiter Mid) (cgBody A M) fuel (cgBody A M s)
        else s) ∧
    (∀ (A M : PyTree Vec → PyTree Vec) (x0 : PyTree Vec),
      cgSolve A b x0 maxiter tol atol M Mid =
        (whileLoop (cgCond (max (tol ^ 2 * vdotRealTree b b) (atol ^ 2)) maxiter Mid)
          (cgBody A M) maxiter
          (x0, subTree b (A x0),
            vdotRealTree (subTree b (A x0)) (M (subTree b (A x0))),
            M (subTree b (A x0)), 0)).1) := by
  refine ⟨?_, ?_, ?_⟩
  · intro x r gamma p k
    simp only [cgCond, Bool.and_eq_true, decide_eq_true_eq]
    exact and_comm
  · intro A M fuel s
    rfl
  · intro A M x0
    rfl

/-- C6: `_safe_normalize` returns the exact zero vector of `x`'s shape and
a zero norm whenever `‖x‖` is at or below the threshold (so no division by
a negligible norm ever happens), and returns `x/‖x‖` with the norm when
`‖x‖` exceeds the threshold. -/
theorem safe_normalize_cases (x : PyTree Vec) (thresh : ℝ) :
    (normTree x ≤ thresh → safeNormalize x thresh = (zerosLike x, 0)) ∧
    (thresh < normTree x →
      safeNormalize x thresh = (divTree x (normTree x), normTree x)) :=
  ⟨fun h => safeNormalize_collapse h, fun h => safeNormalize_div h⟩

/-- Witness for C6 at `x = [3, 4]`, `thresh = 6`: the norm is `5 ≤ 6`, so
the result is the exact zero vector with zero norm. -/
theorem safe_normalize_cases_witness :
    normTree (PyTree.leaf [(3 : ℝ), 4]) ≤ 6 ∧
    safeNormalize (PyTree.leaf [(3 : ℝ), 4]) 6 = (PyTree.leaf [0, 0], 0) := by
  have hv : vdotRealTree (PyTree.leaf [(3 : ℝ), 4]) (PyTree.leaf [(3 : ℝ), 4]) = 25 := by
    simp [vdotRealTree, treeMap2, treeLeaves, dotVec]
    norm_num
  have hnorm : normTree (PyTree.leaf [(3 : ℝ), 4]) = 5 := by
    rw [normTree, hv, show (25 : ℝ) = 5 ^ 2 by norm_num, Real.sqrt_sq]
    norm_num
  have h6 : normTree (PyTree.leaf [(3 : ℝ), 4]) ≤ 6 := by rw [hnorm]; norm_num
  refine ⟨h6, ?_⟩
  rw [(safe_normalize_cases (PyTree.leaf [(3 : ℝ), 4]) 6).1 h6]
  simp [zerosLike, treeMap]

/-- C8: `apply_givens_rotations(H_row, givens, k)` first applies the stored
rotations `0 .. k-1` in index order (`rotateRow` satisfies the recurrence
below), then forms the fresh rotation `(cs, sn) = (v1/t, -v2/t)` with
`t = sqrt(v1² + v2²)` from entries `k`, `k+1` of the rotated row, stores it
at index `k`, and returns the row with entry `k` set to
`cs·row[k] - sn·row[k+1]` and entry `k+1` set to exactly zero. -/
theorem apply_givens_spec (row : List ℝ) (givens : List (ℝ × ℝ)) (k : ℕ) :
    (applyGivensRotations row givens k =
      (let R := rotateRow givens k row
       let t := Real.sqrt (R.getD k 0 ^ 2 + R.getD (k + 1) 0 ^ 2)
       let cs := R.getD k 0 / t
       let sn := -(R.getD (k + 1) 0) / t
       ((R.set k (cs * R.getD k 0 - sn * R.getD (k + 1) 0)).set (k + 1) 0,
        givens.set k (cs, sn)))) ∧
    (∀ j, rotateRow givens (j + 1) row =
      applyIthRotation givens j (rotateRow givens j row)) ∧
    rotateRow givens 0 row = row := by
  refine ⟨rfl, ?_, rfl⟩
  intro j
  simp [rotateRow, List.range_succ]

/-- C10: on a row whose entries `k`, `k+1` are both zero after the stored
rotations are applied (here `k = 1`, with one genuine stored rotation),
`givens_rotation` divides by `t = sqrt(0² + 0²) = 0` with no guard: the
stored `(cos, sin)` pair and the returned row's entry `k` are NaN. -/
theorem givens_rotation_nan_unguarded :
    rfApplyGivensRotations [some 3, some 0, some 0]
        [(some 1, some 0), (some 0, some 0)] 1 =
      ([some 3, none, some 0], [(some 1, some 0), (none, none)]) := by
  simp only [rfApplyGivensRotations, rfApplyIthRotation, rfGivensRotation,
    rfAdd, rfSub, rfMul, rfNeg, rfDiv, rfSqrt, List.range_succ, List.range_zero,
    List.foldl_nil, List.foldl_cons, List.nil_append, List.getD, List.set]
  norm_num

/-- C4: `gmres` reports `info = -1` exactly when the final solution
contains a NaN (over the `RF` model, where a NaN entry is what makes
`‖x‖` NaN) and `info = 0` otherwise; and `cg` returns its `info` as the
always-unavailable placeholder `None` on every successful call. -/
theorem info_nan_flag_and_cg_placeholder :
    (∀ x : List RF, (gmresInfo x = -1 ↔ none ∈ x) ∧
      (none ∉ x → gmresInfo x = 0)) ∧
    (∀ (A : PyTree Vec → PyTree Vec) (b : PyTree Vec)
        (x0? : Option (PyTree Vec)) (tol atol : ℝ) (maxiter? : Option ℕ)
        (M? : Option (PyTree Vec → PyTree Vec)) (x : PyTree Vec)
        (info : Option ℤ),
      cg A b x0? tol atol maxiter? M? = .ok (x, info) → info = none) := by
  constructor
  · intro x
    by_cases hm : none ∈ x
    · have hnan : rfNormTree x = none := (rfNormTree_none_iff x).mpr hm
      simp [gmresInfo, rfIsnan, Option.isNone_iff_eq_none, hnan, hm]
    · have hnan : rfNormTree x ≠ none := fun h => hm ((rfNormTree_none_iff x).mp h)
      simp [gmresInfo, rfIsnan, Option.isNone_iff_eq_none, hnan, hm]
  · intro A b x0? tol atol maxiter? M? x info h
    simp only [cg] at h
    split at h
    · cases h
    · split at h
      · cases h
      · simp only [Except.ok.injEq, Prod.mk.injEq] at h
        exact h.2.symm

/-- Witness for C4's `cg` conjunct: a concrete single-leaf call with zero
right-hand side converges immediately and returns `info = None`. -/
theorem info_cg_placeholder_witness :
    cg (fun t => t) (PyTree.leaf [(0 : ℝ)]) none 1 0 none none =
      .ok (PyTree.leaf [(0 : ℝ)], none) ∧ (none : Option ℤ) = none := by
  have hcond : cgCond (max (vdotRealTree (PyTree.leaf [(0 : ℝ)]) (PyTree.leaf [(0 : ℝ)])) 0)
      10 true
      (PyTree.leaf [(0 : ℝ)],
        subTree (PyTree.leaf [(0 : ℝ)]) (PyTree.leaf [(0 : ℝ)]),
        vdotRealTree (subTree (PyTree.leaf [(0 : ℝ)]) (PyTree.leaf [(0 : ℝ)]))
          (subTree (PyTree.leaf [(0 : ℝ)]) (PyTree.leaf [(0 : ℝ)])),
        subTree (PyTree.leaf [(0 : ℝ)]) (PyTree.leaf [(0 : ℝ)]), 0) = false := by
    simp [cgCond, vdotRealTree, treeMap2, treeLeaves, dotVec, subTree, vecSub]
  have heval : cg (fun t => t) (PyTree.leaf [(0 : ℝ)]) none 1 0 none none =
      .ok (PyTree.leaf [(0 : ℝ)], none) := by
    simp only [cg, Option.getD, Option.isNone, zerosLike, treeMap, List.map,
      sameStructure, shapes, treeLeaves, customLinearSolve, cgSolve]
    norm_num
    rw [whileLoop_stop _ _ _ _ (by exact hcond)]
  exact ⟨heval,
    info_nan_flag_and_cg_placeholder.2 (fun t => t) (PyTree.leaf [(0 : ℝ)])
      none 1 0 none none (PyTree.leaf [(0 : ℝ)]) none heval⟩

/-- C2 (amended): `cg` raises a validation error — for every operator `A`,
hence before `A` is ever applied — on mismatched tree structure and on
mismatched per-leaf shapes; `gmres` raises one on mismatched tree
structure only (its validation does not compare per-leaf shapes). -/
theorem validation_raises_before_solve :
    (∀ (A : PyTree Vec → PyTree Vec) (b x0 : PyTree Vec) (tol atol : ℝ)
        (maxiter? : Option ℕ) (M? : Option (PyTree Vec → PyTree Vec)),
      sameStructure x0 b = false →
      cg A b (some x0) tol atol maxiter? M? = .error structureErrorMsg) ∧
    (∀ (A : PyTree Vec → PyTree Vec) (b x0 : PyTree Vec) (tol atol : ℝ)
        (maxiter? : Option ℕ) (M? : Option (PyTree Vec → PyTree Vec)),
      sameStructure x0 b = true → shapes x0 ≠ shapes b →
      cg A b (some x0) tol atol maxiter? M? = .error shapesErrorMsg) ∧
    (∀ (solveTri solveDense : List (List ℝ) → Vec → Vec) (eps : ℝ)
        (A : PyTree Vec → PyTree Vec) (b x0 : PyTree Vec) (tol atol : ℝ)
        (restart0 : ℕ) (maxiter? : Option ℕ)
        (M? : Option (PyTree Vec → PyTree Vec)) (qrMode : Bool),
      sameStructure x0 b = false →
      gmres solveTri solveDense eps A b (some x0) tol atol restart0 maxiter?
        M? qrMode = .error structureErrorMsg) := by
  refine ⟨?_, ?_, ?_⟩
  · intro A b x0 tol atol maxiter? M? h
    simp [cg, h]
  · intro A b x0 tol atol maxiter? M? h1 h2
    simp [cg, h1, h2]
  · intro solveTri solveDense eps A b x0 tol atol restart0 maxiter? M? qrMode h
    simp [gmres, h]

/-- Witness for C2's amended theorem: a structure-mismatched `x0` makes
`cg` and `gmres` fail validation, and a shape-mismatched (but
structure-matched) `x0` makes `cg` fail validation. -/
theorem validation_raises_before_solve_witness :
    (sameStructure (PyTree.node [PyTree.leaf [(0 : ℝ)]]) (PyTree.leaf [(1 : ℝ)]) = false ∧
      cg (fun t => t) (PyTree.leaf [(1 : ℝ)])
        (some (PyTree.node [PyTree.leaf [(0 : ℝ)]])) 1 0 none none =
        .error structureErrorMsg) ∧
    (sameStructure (PyTree.leaf [(0 : ℝ), 0, 0]) (PyTree.leaf [(1 : ℝ)]) = true ∧
      shapes (PyTree.leaf [(0 : ℝ), 0, 0]) ≠ shapes (PyTree.leaf [(1 : ℝ)]) ∧
      cg (fun t => t) (PyTree.leaf [(1 : ℝ)])
        (some (PyTree.leaf [(0 : ℝ), 0, 0])) 1 0 none none =
        .error shapesErrorMsg) ∧
    gmres (fun _ _ => []) (fun _ _ => []) 0 (fun t => t) (PyTree.leaf [(1 : ℝ)])
      (some (PyTree.node [PyTree.leaf [(0 : ℝ)]])) 1 0 20 none none false =
      .error structureErrorMsg := by
  have hn : sameStructure (PyTree.node [PyTree.leaf [(0 : ℝ)]]) (PyTree.leaf [(1 : ℝ)]) = false := by
    simp [sameStructure]
  have hs : sameStructure (PyTree.leaf [(0 : ℝ), 0, 0]) (PyTree.leaf [(1 : ℝ)]) = true := by
    simp [sameStructure]
  have hsh : shapes (PyTree.leaf [(0 : ℝ), 0, 0]) ≠ shapes (PyTree.leaf [(1 : ℝ)]) := by
    simp [shapes, treeLeaves]
  exact ⟨⟨hn, validation_raises_before_solve.1 (fun t => t) _ _ 1 0 none none hn⟩,
    ⟨hs, hsh, validation_raises_before_solve.2.1 (fun t => t) _ _ 1 0 none none hs hsh⟩,
    validation_raises_before_solve.2.2 (fun _ _ => []) (fun _ _ => []) 0
      (fun t => t) _ _ 1 0 20 none none false hn⟩

/-- C2 counterexample: `gmres` called with `x0` of the same tree structure
as `b` but a different leaf shape passes validation and proceeds into the
solve (the call returns `ok`, not a validation error; `gmres`'s only
`error` exits are its validation checks). -/
theorem gmres_shape_mismatch_unchecked :
    sameStructure (PyTree.leaf [(0 : ℝ), 0]) (PyTree.leaf [(1 : ℝ)]) = true ∧
    shapes (PyTree.leaf [(0 : ℝ), 0]) ≠ shapes (PyTree.leaf [(1 : ℝ)]) ∧
    (gmres (fun _ _ => []) (fun _ _ => []) 0 (fun t => t) (PyTree.leaf [(1 : ℝ)])
      (some (PyTree.leaf [(0 : ℝ), 0])) 1 0 20 none none false).isOk = true := by
  refine ⟨by simp [sameStructure], by simp [shapes, treeLeaves], ?_⟩
  simp only [gmres, Option.getD, sameStructure]
  norm_num
  split <;> rfl

/-- C5: when `‖b‖ = 0` (equivalently, `b` is the zero vector), a
structurally valid `gmres` call returns `x = b` — shown to be the zero
vector — with success status `info = 0`, and it does so for every operator
`A`: the solve, and with it every application of `A`, is skipped
entirely. -/
theorem gmres_zero_rhs (solveTri solveDense : List (List ℝ) → Vec → Vec)
    (eps : ℝ) (A : PyTree Vec → PyTree Vec) (b : PyTree Vec)
    (x0? : Option (PyTree Vec)) (tol atol : ℝ) (restart0 : ℕ)
    (maxiter? : Option ℕ) (M? : Option (PyTree Vec → PyTree Vec))
    (qrMode : Bool)
    (hstruct : sameStructure (x0?.getD (zerosLike b)) b = true)
    (hb : normTree b = 0) :
    gmres solveTri solveDense eps A b x0? tol atol restart0 maxiter? M?
        qrMode = .ok (b, 0) ∧
    ∀ l ∈ treeLeaves b, ∀ a ∈ l, a = 0 := by
  constructor
  · simp [gmres, hstruct, hb]
  · exact normTree_eq_zero_leaves hb

/-- Witness for C5: `b = [0, 0]`, default `x0`, and an operator that would
derail the result were it ever applied; the call returns `(b, 0)`. -/
theorem gmres_zero_rhs_witness :
    normTree (PyTree.leaf [(0 : ℝ), 0]) = 0 ∧
    gmres (fun _ _ => []) (fun _ _ => []) 1 (fun _ => PyTree.node [])
        (PyTree.leaf [(0 : ℝ), 0]) none 1 0 20 none none false =
      .ok (PyTree.leaf [(0 : ℝ), 0], 0) := by
  have hb : normTree (PyTree.leaf [(0 : ℝ), 0]) = 0 := by
    simp [normTree, vdotRealTree, treeMap2, treeLeaves, dotVec]
  have hstruct : sameStructure
      ((none : Option (PyTree Vec)).getD (zerosLike (PyTree.leaf [(0 : ℝ), 0])))
      (PyTree.leaf [(0 : ℝ), 0]) = true := by
    simp [zerosLike, treeMap, sameStructure]
  exact ⟨hb,
    (gmres_zero_rhs (fun _ _ => []) (fun _ _ => []) 1 (fun _ => PyTree.node [])
      (PyTree.leaf [(0 : ℝ), 0]) none 1 0 20 none none false hstruct hb).1⟩

/-- C7: for a nonnegative tolerance, `kth_arnoldi_iteration` signals
`breakdown = true` exactly when the safe normalization of the
orthogonalized remainder collapsed to the zero vector with zero norm; and
the plain variant's basis-build loop condition is false the moment
breakdown is signalled (it continues exactly while `k < restart` and no
breakdown). -/
theorem arnoldi_breakdown (k : ℕ) (A M : PyTree Vec → PyTree Vec)
    (V : PyTree (List Vec)) (H : List (List ℝ)) (tol : ℝ) (htol : 0 ≤ tol) :
    ((kthArnoldiIteration k A M V H tol).2.2 = true ↔
      safeNormalize (iterativeClassicalGramSchmidt V (A (M (getCol V k))) 1).1
          tol =
        (zerosLike
          (iterativeClassicalGramSchmidt V (A (M (getCol V k))) 1).1, 0)) ∧
    (∀ (restart : ℕ) (V' : PyTree (List Vec)) (H' : List (List ℝ)) (k' : ℕ),
      gmresPlainLoopCond restart (V', H', true, k') = false) ∧
    (∀ (restart : ℕ) (V' : PyTree (List Vec)) (H' : List (List ℝ))
        (bd : Bool) (k' : ℕ),
      gmresPlainLoopCond restart (V', H', bd, k') = true ↔
        (k' < restart ∧ bd = false)) := by
  refine ⟨?_, ?_, ?_⟩
  · simp only [kthArnoldiIteration]
    set q := (iterativeClassicalGramSchmidt V (A (M (getCol V k))) 1).1 with hq
    rcases le_or_lt (normTree q) tol with hc | hc
    · rw [safeNormalize_collapse hc]
      simp
    · rw [safeNormalize_div hc]
      have hne : normTree q ≠ 0 := ne_of_gt (lt_of_le_of_lt htol hc)
      simp [Prod.ext_iff, hne]
  · intro restart V' H' k'
    simp [gmresPlainLoopCond]
  · intro restart V' H' bd k'
    by_cases hk : k' < restart <;> simp [gmresPlainLoopCond, hk]

/-- Witness for C7 at a concrete Arnoldi configuration with `tol = 0`. -/
theorem arnoldi_breakdown_witness :
    (0 : ℝ) ≤ 0 ∧
    gmresPlainLoopCond 5 (PyTree.leaf [[(1 : ℝ)], [0]], [[(0 : ℝ), 0]], true, 0) =
      false :=
  ⟨le_refl 0,
    (arnoldi_breakdown 0 id id (PyTree.leaf [[(1 : ℝ)], [0]]) [[(0 : ℝ), 0]] 0
      (le_refl 0)).2.1 5 (PyTree.leaf [[(1 : ℝ)], [0]]) [[(0 : ℝ), 0]] 0⟩

/-- C9 (amended): `_iterative_classical_gram_schmidt` performs two passes
by default, but `kth_arnoldi_iteration` orthogonalizes with an explicit
single pass (`iterations=1`), not the default two-pass scheme. -/
theorem gram_schmidt_pass_counts :
    (∀ (Q : PyTree (List Vec)) (x : PyTree Vec),
      iterativeClassicalGramSchmidt Q x =
        icgsStep Q (icgsStep Q
          (x, List.replicate ((treeLeaves Q).headD []).length 0))) ∧
    (∀ (k : ℕ) (A M : PyTree Vec → PyTree Vec) (V : PyTree (List Vec))
        (H : List (List ℝ)) (tol : ℝ),
      kthArnoldiIteration k A M V H tol =
        (let qh := icgsStep V (A (M (getCol V k)),
            List.replicate ((treeLeaves V).headD []).length 0)
         let uv := safeNormalize qh.1 tol
         (setCol V (k + 1) uv.1, H.set k (qh.2.set (k + 1) uv.2),
          decide (uv.2 = 0)))) := by
  constructor
  · intro Q x
    rfl
  · intro k A M V H tol
    rfl

/-- C9 counterexample: on a basis whose first column is not normalized,
the single-pass orthogonalization actually performed by
`kth_arnoldi_iteration` produces a different result (already in the
Hessenberg entry `H[0][0]`: `2` versus `0`) from the spec's default
two-pass scheme. -/
theorem arnoldi_single_pass_differs :
    kthArnoldiIteration 0 id id (PyTree.leaf [[(1 : ℝ), 1], [0, 0]])
        [[(0 : ℝ), 0]] 0 ≠
      kthArnoldiIterationTwoPass 0 id id (PyTree.leaf [[(1 : ℝ), 1], [0, 0]])
        [[(0 : ℝ), 0]] 0 := by
  intro h
  have h2 := congrArg (fun r => ((r.2.1.getD 0 []).getD 0 0 : ℝ)) h
  simp only [kthArnoldiIteration, kthArnoldiIterationTwoPass,
    iterativeClassicalGramSchmidt, icgsLoop, icgsStep, projectOnColumns,
    treeMap2, treeLeaves, treeMap, treeMapList, treeMap2List, treeLeavesList,
    matVec, getCol, setCol, subTree, vecSub, vecAdd, dotVec,
    List.zipWith, List.map, List.foldl, List.headD, List.replicate,
    List.set, List.getD, List.get?, List.sum_cons, List.sum_nil, id] at h2
  norm_num at h2

end

end JaxLinalg
